import Mathlib

/-!
Verification development for the `l10n_sa_edi_pos_direct` point-of-sale
module (ZATCA QR pipeline).  The JavaScript source is shallowly embedded:
JS objects become an explicit JSON value type, strings become `List Char`,
byte buffers become `List Nat`, monetary amounts become integer cents, and
code that can throw returns `Option`/`Except`.  Two near-identical copies of
`pos_order.js` exist in the repository; functions from
`src/static/src/overrides/models/pos_order.js` carry the suffix `S`
("static" variant, which uses the raw `btoa`) and functions from
`src/l10n_sa_edi_pos_direct/static/src/overrides/models/pos_order.js` carry
the suffix `D` ("direct" variant, which uses `_unicodeSafeBase64Encode`).
-/

/-- Alphanumeric character test, mirroring the JS regex class `[A-Za-z0-9]`. -/
def isAlnum (c : Char) : Bool :=
  ('A' ≤ c && c ≤ 'Z') || ('a' ≤ c && c ≤ 'z') || ('0' ≤ c && c ≤ '9')

/-- White-space characters matched by the JS regex class `\s`. -/
def jsWsChars : List Char :=
  [' ', '\t', '\n', '\x0d', '\x0b', '\x0c', ' ', ' ', ' ',
   ' ', ' ', ' ', ' ', ' ', ' ', ' ',
   ' ', ' ', ' ', ' ', ' ', ' ', ' ',
   '　', '﻿']

/-- White-space test for the JS regexes `\s+`, `,\s*}`, `,\s*]`. -/
def isJsWs (c : Char) : Bool := jsWsChars.contains c

/-- Count of alphanumeric characters in a character list. -/
def countAlnum (l : List Char) : Nat := l.countP isAlnum

theorem isJsWs_not_alnum {c : Char} (h : isJsWs c = true) : isAlnum c = false := by
  have hm : c ∈ jsWsChars := by
    simpa [isJsWs] using h
  fin_cases hm <;> decide

/-- Decimal digits of a natural number, most significant first, with explicit
structural fuel (the wrapper `natDigits` supplies enough fuel for any input). -/
def natDigitsAux : Nat → Nat → List Char
  | 0, n => [Char.ofNat (48 + n % 10)]
  | fuel + 1, n =>
    if n < 10 then [Char.ofNat (48 + n)]
    else natDigitsAux fuel (n / 10) ++ [Char.ofNat (48 + n % 10)]

/-- Decimal digits of a natural number, most significant first. -/
def natDigits (n : Nat) : List Char := natDigitsAux n n

theorem isAlnum_digit (d : Nat) (h : d < 10) : isAlnum (Char.ofNat (48 + d)) = true := by
  interval_cases d <;> decide

theorem countAlnum_natDigitsAux (fuel n : Nat) : 1 ≤ countAlnum (natDigitsAux fuel n) := by
  cases fuel with
  | zero =>
    have : isAlnum (Char.ofNat (48 + n % 10)) = true :=
      isAlnum_digit _ (Nat.mod_lt _ (by omega))
    simp [natDigitsAux, countAlnum, this]
  | succ fuel =>
    rw [natDigitsAux]
    split
    · rename_i h
      simp [countAlnum, isAlnum_digit n h]
    · have : isAlnum (Char.ofNat (48 + n % 10)) = true :=
        isAlnum_digit _ (Nat.mod_lt _ (by omega))
      simp [countAlnum, List.countP_append, this, List.countP_cons]

theorem countAlnum_natDigits (n : Nat) : 1 ≤ countAlnum (natDigits n) :=
  countAlnum_natDigitsAux n n

theorem natDigitsAux_ascii (fuel n : Nat) :
    ∀ c ∈ natDigitsAux fuel n, c.toNat < 128 ∧ isAlnum c = true := by
  induction fuel generalizing n with
  | zero =>
    intro c hc
    have h10 : n % 10 < 10 := Nat.mod_lt _ (by omega)
    simp [natDigitsAux] at hc
    subst hc
    refine ⟨?_, isAlnum_digit _ h10⟩
    interval_cases h : (n % 10) <;> simp_all
  | succ fuel ih =>
    intro c hc
    rw [natDigitsAux] at hc
    split at hc
    · rename_i h
      simp at hc
      subst hc
      refine ⟨?_, isAlnum_digit _ h⟩
      interval_cases n <;> decide
    · have h10 : n % 10 < 10 := Nat.mod_lt _ (by omega)
      simp at hc
      rcases hc with hc | hc
      · exact ih _ c hc
      · subst hc
        refine ⟨?_, isAlnum_digit _ h10⟩
        interval_cases h : (n % 10) <;> simp_all

/-- String form of a JS number whose exact value is `c / 100` (the embedding
represents the JS floating-point amounts of the source by integer cents). -/
def numToStringL (c : Int) : List Char :=
  (if c < 0 then ['-'] else []) ++ natDigits (c.natAbs / 100) ++
    (if c.natAbs % 100 = 0 then []
     else if c.natAbs % 100 % 10 = 0 then '.' :: natDigits (c.natAbs % 100 / 10)
     else if c.natAbs % 100 < 10 then '.' :: '0' :: natDigits (c.natAbs % 100)
     else '.' :: natDigits (c.natAbs % 100))

/-- String form of JS `x.toFixed(2)` for an amount of `c` cents. -/
def toFixed2L (c : Int) : List Char :=
  (if c < 0 then ['-'] else []) ++ natDigits (c.natAbs / 100) ++ '.' ::
    (if c.natAbs % 100 < 10 then '0' :: natDigits (c.natAbs % 100)
     else natDigits (c.natAbs % 100))

theorem countAlnum_numToStringL (c : Int) : 1 ≤ countAlnum (numToStringL c) := by
  have h1 := countAlnum_natDigits (c.natAbs / 100)
  unfold numToStringL countAlnum at h1 ⊢
  split_ifs <;>
    simp only [List.countP_append, List.countP_nil, List.countP_cons] <;>
    omega

mutual
/-- JSON-like JS values.  Objects keep their key insertion order, as JS
objects do; numbers are represented by integer cents (see `numToStringL`). -/
inductive JVal where
  | jnull : JVal
  | jbool : Bool → JVal
  | jnum : Int → JVal
  | jstr : String → JVal
  | jarr : JArr → JVal
  | jobj : JObj → JVal
/-- Ordered list of array elements. -/
inductive JArr where
  | nil : JArr
  | cons : JVal → JArr → JArr
/-- Ordered association list of object entries (key insertion order). -/
inductive JObj where
  | nil : JObj
  | cons : String → JVal → JObj → JObj
end

deriving instance DecidableEq for JVal, JArr, JObj

open JVal JArr JObj

/-- Hexadecimal digit character (lower case), as emitted by `JSON.stringify`
for control characters. -/
def hexDigit (n : Nat) : Char :=
  if n < 10 then Char.ofNat (48 + n) else Char.ofNat (87 + n)

/-- JSON escaping of a single character, following `JSON.stringify`. -/
def escChar (c : Char) : List Char :=
  if c = '"' then ['\\', '"']
  else if c = '\\' then ['\\', '\\']
  else if c = '\x08' then ['\\', 'b']
  else if c = '\x09' then ['\\', 't']
  else if c = '\x0a' then ['\\', 'n']
  else if c = '\x0c' then ['\\', 'f']
  else if c = '\x0d' then ['\\', 'r']
  else if c.toNat < 32 then
    ['\\', 'u', '0', '0', hexDigit (c.toNat / 16), hexDigit (c.toNat % 16)]
  else [c]

/-- JSON string literal (quote and escape), following `JSON.stringify` on a
string value. -/
def jsonQuoteL (l : List Char) : List Char :=
  '"' :: (l.map escChar).flatten ++ ['"']

mutual
/-- Compact serialization of a value, following
`JSON.stringify(x, null, 0)`. -/
def stringifyV : JVal → List Char
  | jnull => ['n', 'u', 'l', 'l']
  | jbool true => ['t', 'r', 'u', 'e']
  | jbool false => ['f', 'a', 'l', 's', 'e']
  | jnum c => numToStringL c
  | jstr s => jsonQuoteL s.toList
  | jarr a => '[' :: stringifyA a ++ [']']
  | jobj o => '\x7b' :: stringifyO o ++ ['\x7d']
/-- Serialization of array elements with separating commas. -/
def stringifyA : JArr → List Char
  | JArr.nil => []
  | JArr.cons v JArr.nil => stringifyV v
  | JArr.cons v (JArr.cons w t) =>
      stringifyV v ++ ',' :: stringifyA (JArr.cons w t)
/-- Serialization of object entries with separating commas. -/
def stringifyO : JObj → List Char
  | JObj.nil => []
  | JObj.cons k v JObj.nil => jsonQuoteL k.toList ++ ':' :: stringifyV v
  | JObj.cons k v (JObj.cons k' v' t) =>
      jsonQuoteL k.toList ++ ':' :: stringifyV v ++
        ',' :: stringifyO (JObj.cons k' v' t)
end

/-- Entry list of an object (insertion order). -/
def entriesO : JObj → List (String × JVal)
  | JObj.nil => []
  | JObj.cons k v t => (k, v) :: entriesO t

/-- Rebuild an object from an entry list. -/
def ofListO : List (String × JVal) → JObj
  | [] => JObj.nil
  | (k, v) :: t => JObj.cons k v (ofListO t)

/-- Lexicographic comparison of character lists by code point, the order
used by JS `Array.prototype.sort()` on object keys. -/
def charsLe : List Char → List Char → Bool
  | [], _ => true
  | _ :: _, [] => false
  | a :: as, b :: bs =>
    if a.toNat < b.toNat then true
    else if b.toNat < a.toNat then false
    else charsLe as bs

theorem charEqOfToNat {a b : Char} (h : a.toNat = b.toNat) : a = b := by
  apply Char.ext
  exact UInt32.toNat.inj h

theorem charsLe_refl : ∀ x : List Char, charsLe x x = true
  | [] => rfl
  | a :: as => by simp [charsLe, charsLe_refl as]

theorem charsLe_total : ∀ x y : List Char, charsLe x y = true ∨ charsLe y x = true
  | [], _ => Or.inl rfl
  | _ :: _, [] => Or.inr rfl
  | a :: as, b :: bs => by
    rcases Nat.lt_trichotomy a.toNat b.toNat with h | h | h
    · left; simp [charsLe, h]
    · rcases charsLe_total as bs with ih | ih
      · left; simp [charsLe, h, ih]
      · right; simp [charsLe, h.symm, ih]
    · right; simp [charsLe, h]

theorem charsLe_trans :
    ∀ x y z : List Char, charsLe x y = true → charsLe y z = true →
      charsLe x z = true
  | [], _, _ => by intro _ _; rfl
  | a :: as, [], _ => by intro h _; simp [charsLe] at h
  | _ :: _, _ :: _, [] => by intro _ h; simp [charsLe] at h
  | a :: as, b :: bs, c :: cs => by
    intro h1 h2
    rw [charsLe] at h1 h2 ⊢
    split_ifs at h1 h2 ⊢ with hab hba hbc hcb hac hca
    all_goals first
      | rfl
      | omega
      | (exact charsLe_trans as bs cs h1 h2)

theorem charsLe_antisymm :
    ∀ x y : List Char, charsLe x y = true → charsLe y x = true → x = y
  | [], [] => by intro _ _; rfl
  | [], _ :: _ => by intro _ h; simp [charsLe] at h
  | _ :: _, [] => by intro h _; simp [charsLe] at h
  | a :: as, b :: bs => by
    intro h1 h2
    rw [charsLe] at h1 h2
    split_ifs at h1 h2 with hab hba
    · omega
    · rw [charEqOfToNat (by omega : a.toNat = b.toNat),
        charsLe_antisymm as bs h1 h2]

/-- Key order used by `Object.keys(obj).sort()` of the source. -/
def keyLe (p q : String × JVal) : Prop := charsLe p.1.toList q.1.toList = true

instance : DecidableRel keyLe :=
  fun _ _ => inferInstanceAs (Decidable (_ = true))

instance : IsTotal (String × JVal) keyLe where
  total _ _ := charsLe_total _ _

instance : IsTrans (String × JVal) keyLe :=
  ⟨fun _ _ _ h h' => charsLe_trans _ _ _ h h'⟩

mutual
/-- Recursive key sorting of `_sortObjectKeysRecursively`: array order is
kept, object keys are sorted alphabetically at every depth. -/
def sortV : JVal → JVal
  | jnull => jnull
  | jbool b => jbool b
  | jnum c => jnum c
  | jstr s => jstr s
  | jarr a => jarr (sortA a)
  | jobj o => jobj (ofListO (List.insertionSort keyLe (sortO o)))
/-- Recursive key sorting inside an array. -/
def sortA : JArr → JArr
  | JArr.nil => JArr.nil
  | JArr.cons v t => JArr.cons (sortV v) (sortA t)
/-- Entry list of an object after recursively sorting every value. -/
def sortO : JObj → List (String × JVal)
  | JObj.nil => []
  | JObj.cons k v t => (k, sortV v) :: sortO t
end

/-- Remove the first entry with the given key, returning its value and the
remaining object. -/
def extractO (k : String) : JObj → Option (JVal × JObj)
  | JObj.nil => none
  | JObj.cons k' v t =>
      if k' = k then some (v, t)
      else (extractO k t).map (fun p => (p.1, JObj.cons k' v p.2))

mutual
/-- Structural equality of JS values: atoms equal, arrays equal element-wise
in order, objects carrying the same key-value mapping at every depth
regardless of key insertion order. -/
def seqV : JVal → JVal → Bool
  | jnull, jnull => true
  | jbool b, jbool b' => b == b'
  | jnum c, jnum c' => c == c'
  | jstr s, jstr s' => s == s'
  | jarr a, jarr a' => seqA a a'
  | jobj o, jobj o' => seqO o o'
  | _, _ => false
termination_by v _ => sizeOf v
/-- Element-wise structural equality of arrays. -/
def seqA : JArr → JArr → Bool
  | JArr.nil, JArr.nil => true
  | JArr.cons v t, JArr.cons v' t' => seqV v v' && seqA t t'
  | _, _ => false
termination_by a _ => sizeOf a
/-- Structural equality of objects up to key insertion order. -/
def seqO : JObj → JObj → Bool
  | JObj.nil, JObj.nil => true
  | JObj.nil, JObj.cons _ _ _ => false
  | JObj.cons k v t, o₂ =>
      match extractO k o₂ with
      | none => false
      | some (w, o₂') => seqV v w && seqO t o₂'
termination_by o _ => sizeOf o
end

/-- Object keys, in insertion order. -/
def keysO : JObj → List String
  | JObj.nil => []
  | JObj.cons k _ t => k :: keysO t

mutual
/-- Well-formedness of a JS value: object keys are distinct at every depth
(as is automatic for real JS objects). -/
def wfV : JVal → Bool
  | jnull => true
  | jbool _ => true
  | jnum _ => true
  | jstr _ => true
  | jarr a => wfA a
  | jobj o => decide (keysO o).Nodup && wfO o
/-- Well-formedness of every array element. -/
def wfA : JArr → Bool
  | JArr.nil => true
  | JArr.cons v t => wfV v && wfA t
/-- Well-formedness of every object entry value. -/
def wfO : JObj → Bool
  | JObj.nil => true
  | JObj.cons _ v t => wfV v && wfO t
end

theorem eq_of_perm_sorted_nodupkeys :
    ∀ (l₁ l₂ : List (String × JVal)), l₁.Perm l₂ → l₁.Sorted keyLe → l₂.Sorted keyLe →
      (l₁.map Prod.fst).Nodup → l₁ = l₂ := by
  intro l₁
  induction l₁ with
  | nil =>
    intro l₂ hp _ _ _
    exact (hp.symm.eq_nil).symm
  | cons p t ih =>
    intro l₂ hp hs₁ hs₂ hnd
    cases l₂ with
    | nil =>
      have := hp.eq_nil
      simp at this
    | cons q t₂ =>
      have hpq : p ∈ q :: t₂ := hp.mem_iff.mp (List.mem_cons_self _ _)
      have hqp : q ∈ p :: t := hp.mem_iff.mpr (List.mem_cons_self _ _)
      have h₁ : keyLe p q := by
        rcases List.mem_cons.mp hqp with h | h
        · rw [h]; exact charsLe_refl _
        · exact (List.sorted_cons.mp hs₁).1 q h
      have h₂ : keyLe q p := by
        rcases List.mem_cons.mp hpq with h | h
        · rw [h]; exact charsLe_refl _
        · exact (List.sorted_cons.mp hs₂).1 p h
      have hk : p.1 = q.1 := by
        have := charsLe_antisymm _ _ h₁ h₂
        exact String.toList_inj.mp this
      have hpq' : p = q := by
        rcases List.mem_cons.mp hpq with h | h
        · exact h
        · exfalso
          have hnd₂ : ((q :: t₂).map Prod.fst).Nodup := (hp.map Prod.fst).nodup hnd
          have hmem : p.1 ∈ t₂.map Prod.fst := List.mem_map_of_mem Prod.fst h
          rw [List.map_cons, List.nodup_cons] at hnd₂
          exact hnd₂.1 (hk ▸ hmem)
      subst hpq'
      have ht : t.Perm t₂ := hp.cons_inv
      have hnd' : (t.map Prod.fst).Nodup := by
        rw [List.map_cons, List.nodup_cons] at hnd
        exact hnd.2
      rw [ih t₂ ht (List.sorted_cons.mp hs₁).2 (List.sorted_cons.mp hs₂).2 hnd']

theorem sortO_keys : ∀ o : JObj, (sortO o).map Prod.fst = keysO o
  | JObj.nil => rfl
  | JObj.cons k v t => by simp [sortO, keysO, sortO_keys t]

theorem extractO_perm : ∀ (o : JObj) (k : String) (w : JVal) (o' : JObj),
    extractO k o = some (w, o') → (sortO o).Perm ((k, sortV w) :: sortO o')
  | JObj.nil, _, _, _ => by simp [extractO]
  | JObj.cons k' v t, k, w, o' => by
    simp only [extractO]
    split
    · rename_i hkk
      intro he
      injection he with he
      injection he with he₁ he₂
      subst hkk; subst he₁; subst he₂
      simp [sortO]
    · rename_i hkk
      cases hE : extractO k t with
      | none => simp [hE]
      | some p =>
        obtain ⟨w', t'⟩ := p
        simp only [hE, Option.map_some']
        intro he
        injection he with he
        injection he with he₁ he₂
        subst he₁; subst he₂
        have ih := extractO_perm t k w' t' hE
        have step1 : sortO (JObj.cons k' v t) = (k', sortV v) :: sortO t := by
          simp [sortO]
        have step4 : (k, sortV w') :: sortO (JObj.cons k' v t') =
            (k, sortV w') :: (k', sortV v) :: sortO t' := by simp [sortO]
        rw [step1, step4]
        exact (ih.cons _).trans (List.Perm.swap _ _ _)

mutual
theorem seqV_sortV (v w : JVal) (h : seqV v w = true) (hw : wfV v = true) :
    sortV v = sortV w := by
  cases v with
  | jnull => cases w <;> simp_all [seqV]
  | jbool b => cases w <;> simp_all [seqV]
  | jnum c => cases w <;> simp_all [seqV]
  | jstr s => cases w <;> simp_all [seqV]
  | jarr a =>
    cases w with
    | jarr a' =>
      have h' : seqA a a' = true := by simpa [seqV] using h
      have hw' : wfA a = true := by simpa [wfV] using hw
      simpa [sortV] using congrArg JVal.jarr (seqA_sortA a a' h' hw')
    | jnull => simp [seqV] at h
    | jbool _ => simp [seqV] at h
    | jnum _ => simp [seqV] at h
    | jstr _ => simp [seqV] at h
    | jobj _ => simp [seqV] at h
  | jobj o =>
    cases w with
    | jobj o' =>
      have h' : seqO o o' = true := by simpa [seqV] using h
      have hw' : (keysO o).Nodup ∧ wfO o = true := by
        simpa [wfV, Bool.and_eq_true, decide_eq_true_iff] using hw
      have hperm := seqO_perm o o' h' hw'.2
      have hsorted :
          List.insertionSort keyLe (sortO o) = List.insertionSort keyLe (sortO o') := by
        apply eq_of_perm_sorted_nodupkeys
        · exact (List.perm_insertionSort keyLe _).trans
            (hperm.trans (List.perm_insertionSort keyLe _).symm)
        · exact List.sorted_insertionSort keyLe _
        · exact List.sorted_insertionSort keyLe _
        · have hp : ((List.insertionSort keyLe (sortO o)).map Prod.fst).Perm
              ((sortO o).map Prod.fst) := (List.perm_insertionSort keyLe _).map _
          have : ((sortO o).map Prod.fst).Nodup := by rw [sortO_keys]; exact hw'.1
          exact hp.symm.nodup this
      simp [sortV, hsorted]
    | jnull => simp [seqV] at h
    | jbool _ => simp [seqV] at h
    | jnum _ => simp [seqV] at h
    | jstr _ => simp [seqV] at h
    | jarr _ => simp [seqV] at h
termination_by sizeOf v

theorem seqA_sortA (a b : JArr) (h : seqA a b = true) (hw : wfA a = true) :
    sortA a = sortA b := by
  cases a with
  | nil => cases b with
    | nil => rfl
    | cons v t => simp [seqA] at h
  | cons v t =>
    cases b with
    | nil => simp [seqA] at h
    | cons w t' =>
      have h' : seqV v w = true ∧ seqA t t' = true := by
        simpa [seqA, Bool.and_eq_true] using h
      have hw' : wfV v = true ∧ wfA t = true := by
        simpa [wfA, Bool.and_eq_true] using hw
      simp [sortA, seqV_sortV v w h'.1 hw'.1, seqA_sortA t t' h'.2 hw'.2]
termination_by sizeOf a

theorem seqO_perm (o₁ o₂ : JObj) (h : seqO o₁ o₂ = true) (hw : wfO o₁ = true) :
    (sortO o₁).Perm (sortO o₂) := by
  cases o₁ with
  | nil =>
    cases o₂ with
    | nil => simp [sortO]
    | cons k v t => simp [seqO] at h
  | cons k v t =>
    rw [seqO] at h
    cases hE : extractO k o₂ with
    | none => rw [hE] at h; simp at h
    | some p =>
      obtain ⟨w, o₂'⟩ := p
      rw [hE] at h
      have h' : seqV v w = true ∧ seqO t o₂' = true := by
        simpa [Bool.and_eq_true] using h
      have hw' : wfV v = true ∧ wfO t = true := by
        simpa [wfO, Bool.and_eq_true] using hw
      have h1 : sortV v = sortV w := seqV_sortV v w h'.1 hw'.1
      have h2 : (sortO t).Perm (sortO o₂') := seqO_perm t o₂' h'.2 hw'.2
      have h3 := extractO_perm o₂ k w o₂' hE
      have : sortO (JObj.cons k v t) = (k, sortV v) :: sortO t := by simp [sortO]
      rw [this, h1]
      exact (h2.cons _).trans h3.symm
termination_by sizeOf o₁
end

/-- Replacement pass of the JS regex `s.replace(/\s+/g, ' ')`: every maximal
run of white-space becomes a single space.  The flag records whether the
previous character was white-space. -/
def collapseWsAux : Bool → List Char → List Char
  | _, [] => []
  | prevWs, c :: rest =>
    if isJsWs c then
      if prevWs then collapseWsAux true rest
      else ' ' :: collapseWsAux true rest
    else c :: collapseWsAux false rest

/-- JS `s.replace(/\s+/g, ' ')`. -/
def collapseWs (l : List Char) : List Char := collapseWsAux false l

theorem countAlnum_collapseWsAux (b : Bool) (l : List Char) :
    countAlnum (collapseWsAux b l) = countAlnum l := by
  induction l generalizing b with
  | nil => rfl
  | cons c rest ih =>
    have ihT : List.countP isAlnum (collapseWsAux true rest) =
        List.countP isAlnum rest := ih true
    have ihF : List.countP isAlnum (collapseWsAux false rest) =
        List.countP isAlnum rest := ih false
    rw [collapseWsAux]
    by_cases hws : isJsWs c = true
    · have hna := isJsWs_not_alnum hws
      cases b <;>
        simp [hws, countAlnum, List.countP_cons, hna, ihT,
          show isAlnum ' ' = false by decide]
    · simp only [Bool.not_eq_true] at hws
      simp [hws, countAlnum, List.countP_cons, ihF]

theorem countAlnum_collapseWs (l : List Char) :
    countAlnum (collapseWs l) = countAlnum l :=
  countAlnum_collapseWsAux false l

theorem countAlnum_dropWhileWs (l : List Char) :
    countAlnum (l.dropWhile isJsWs) = countAlnum l := by
  induction l with
  | nil => rfl
  | cons c rest ih =>
    have ih' : List.countP isAlnum (List.dropWhile isJsWs rest) =
        List.countP isAlnum rest := ih
    rw [List.dropWhile_cons]
    by_cases hws : isJsWs c = true
    · simp [hws, countAlnum, List.countP_cons, isJsWs_not_alnum hws, ih']
    · simp only [Bool.not_eq_true] at hws
      simp [hws]

/-- Attempt to match the tail of the regex `,\s*X` after the comma: skip
white-space, require the closing character, return the remainder. -/
def matchWsClose (close : Char) (l : List Char) : Option (List Char) :=
  match l.dropWhile isJsWs with
  | [] => none
  | c :: r => if c = close then some r else none

theorem matchWsClose_length {close : Char} {l r : List Char}
    (h : matchWsClose close l = some r) : r.length < l.length := by
  unfold matchWsClose at h
  cases hd : l.dropWhile isJsWs with
  | nil => rw [hd] at h; simp at h
  | cons c rest =>
    rw [hd] at h
    dsimp only at h
    split_ifs at h
    injection h with h
    subst h
    have hle : (l.dropWhile isJsWs).length ≤ l.length :=
      (List.dropWhile_sublist isJsWs).length_le
    rw [hd] at hle
    simp at hle
    omega

theorem matchWsClose_count {close : Char} (hc : isAlnum close = false)
    {l r : List Char} (h : matchWsClose close l = some r) :
    countAlnum l = countAlnum r := by
  unfold matchWsClose at h
  cases hd : l.dropWhile isJsWs with
  | nil => rw [hd] at h; simp at h
  | cons c rest =>
    rw [hd] at h
    dsimp only at h
    split_ifs at h with hcc
    injection h with h
    subst h; subst hcc
    have := countAlnum_dropWhileWs l
    rw [hd] at this
    simp [countAlnum, List.countP_cons, hc] at this
    simpa [countAlnum] using this.symm

/-- Replacement pass of the JS regexes `s.replace(/,\s*}/g, '}')` and
`s.replace(/,\s*]/g, ']')`, left to right, non-overlapping, with explicit
structural fuel (the wrapper supplies enough fuel for any input). -/
def stripCommaAux (close : Char) : Nat → List Char → List Char
  | _, [] => []
  | 0, l => l
  | fuel + 1, c :: rest =>
    if c = ',' then
      match matchWsClose close rest with
      | some rest' => close :: stripCommaAux close fuel rest'
      | none => ',' :: stripCommaAux close fuel rest
    else c :: stripCommaAux close fuel rest

/-- JS `s.replace(/,\s*CLOSE/g, CLOSE)`. -/
def stripCommaBefore (close : Char) (l : List Char) : List Char :=
  stripCommaAux close l.length l

theorem countAlnum_stripCommaAux (close : Char) (hc : isAlnum close = false)
    (hcm : isAlnum ',' = false) :
    ∀ (fuel : Nat) (l : List Char), countAlnum (stripCommaAux close fuel l) = countAlnum l := by
  intro fuel
  induction fuel with
  | zero => intro l; cases l <;> rfl
  | succ fuel ih =>
    intro l
    cases l with
    | nil => rfl
    | cons c rest =>
      have ihP : ∀ m : List Char, List.countP isAlnum (stripCommaAux close fuel m) =
          List.countP isAlnum m := fun m => ih m
      rw [stripCommaAux]
      split_ifs with hcomma
      · cases hm : matchWsClose close rest with
        | none =>
          subst hcomma
          simp [countAlnum, List.countP_cons, hcm, ihP rest]
        | some rest' =>
          subst hcomma
          have h1 : List.countP isAlnum rest = List.countP isAlnum rest' :=
            matchWsClose_count hc hm
          simp [countAlnum, List.countP_cons, hcm, hc, ihP rest', h1]
      · simp [countAlnum, List.countP_cons, ihP rest]

theorem countAlnum_stripCommaBefore (close : Char) (hc : isAlnum close = false)
    (l : List Char) : countAlnum (stripCommaBefore close l) = countAlnum l :=
  countAlnum_stripCommaAux close hc (by decide) l.length l

/-- JS `s.trim()`: strip white-space from both ends. -/
def trimJs (l : List Char) : List Char :=
  ((l.dropWhile isJsWs).reverse.dropWhile isJsWs).reverse

theorem countAlnum_trimJs (l : List Char) : countAlnum (trimJs l) = countAlnum l := by
  unfold trimJs
  have h1 : ∀ m : List Char, countAlnum m.reverse = countAlnum m := fun m =>
    (List.reverse_perm m).countP_eq _
  rw [h1, countAlnum_dropWhileWs, h1, countAlnum_dropWhileWs]

/-- Normalisation chain applied by `_canonicalizeForZatca` after
`JSON.stringify`: collapse white-space, drop commas before `}` and before
`]`, then trim. -/
def normalizeZatca (l : List Char) : List Char :=
  trimJs (stripCommaBefore ']' (stripCommaBefore '\x7d' (collapseWs l)))

theorem countAlnum_normalizeZatca (l : List Char) :
    countAlnum (normalizeZatca l) = countAlnum l := by
  unfold normalizeZatca
  rw [countAlnum_trimJs, countAlnum_stripCommaBefore _ (by decide),
    countAlnum_stripCommaBefore _ (by decide), countAlnum_collapseWs]

/-- Embedding of `_canonicalizeForZatca` (identical in both source variants):
sort keys recursively, `JSON.stringify` compactly, then normalise.  The
`catch` branch of the source is unreachable in the embedding because every
step is total. -/
def canonicalizeForZatca (v : JVal) : List Char :=
  normalizeZatca (stringifyV (sortV v))

/-- The base64 alphabet. -/
def b64Alphabet : List Char :=
  "ABCDEFGHIJKLMNOPQRSTUVWXYZabcdefghijklmnopqrstuvwxyz0123456789+/".toList

/-- Character for a 6-bit value. -/
def b64Char (n : Nat) : Char := b64Alphabet.getD n 'A'

/-- Index of a base64 character, used by the round-trip decoder. -/
def b64Inv (c : Char) : Option Nat := b64Alphabet.findIdx? (fun d => d == c)

/-- Base64 rendering of a byte sequence, as produced by JS `btoa` on a
string of character codes below 256. -/
def encodeB64 : List Nat → List Char
  | [] => []
  | [b1] => [b64Char (b1 / 4), b64Char (b1 % 4 * 16), '=', '=']
  | [b1, b2] =>
      [b64Char (b1 / 4), b64Char (b1 % 4 * 16 + b2 / 16), b64Char (b2 % 16 * 4), '=']
  | b1 :: b2 :: b3 :: rest =>
      b64Char (b1 / 4) :: b64Char (b1 % 4 * 16 + b2 / 16) ::
        b64Char (b2 % 16 * 4 + b3 / 64) :: b64Char (b3 % 64) :: encodeB64 rest

/-- Base64 decoding, the inverse of `encodeB64`. -/
def decodeB64 : List Char → Option (List Nat)
  | [] => some []
  | c1 :: c2 :: c3 :: c4 :: rest =>
    match b64Inv c1, b64Inv c2 with
    | some n1, some n2 =>
      if c3 = '=' ∧ c4 = '=' ∧ rest = [] then some [n1 * 4 + n2 / 16]
      else if c4 = '=' ∧ rest = [] then
        match b64Inv c3 with
        | some n3 => some [n1 * 4 + n2 / 16, n2 % 16 * 16 + n3 / 4]
        | none => none
      else
        match b64Inv c3, b64Inv c4, decodeB64 rest with
        | some n3, some n4, some bs =>
            some ((n1 * 4 + n2 / 16) :: (n2 % 16 * 16 + n3 / 4) :: (n3 % 4 * 64 + n4) :: bs)
        | _, _, _ => none
    | _, _ => none
  | _ => none

theorem b64Inv_b64Char : ∀ n, n < 64 → b64Inv (b64Char n) = some n := by decide

theorem b64Char_ne_pad : ∀ n, n < 64 → b64Char n ≠ '=' := by decide

theorem isAlnum_b64Char : ∀ n, n < 62 → isAlnum (b64Char n) = true := by decide

theorem b64Char_ascii : ∀ n, n < 64 → (b64Char n).toNat < 128 := by decide

theorem decodeB64_encodeB64 :
    ∀ bs : List Nat, (∀ b ∈ bs, b < 256) → decodeB64 (encodeB64 bs) = some bs
  | [] => by intro _; rfl
  | [b1] => by
    intro h
    have hb1 : b1 < 256 := h b1 (by simp)
    rw [encodeB64, decodeB64]
    rw [b64Inv_b64Char _ (by omega), b64Inv_b64Char _ (by omega)]
    dsimp only
    rw [if_pos ⟨rfl, rfl, rfl⟩]
    simp
    omega
  | [b1, b2] => by
    intro h
    have hb1 : b1 < 256 := h b1 (by simp)
    have hb2 : b2 < 256 := h b2 (by simp)
    rw [encodeB64, decodeB64]
    rw [b64Inv_b64Char _ (by omega), b64Inv_b64Char _ (by omega)]
    dsimp only
    rw [if_neg (by simp [b64Char_ne_pad (b2 % 16 * 4) (by omega)])]
    rw [if_pos ⟨rfl, rfl⟩]
    rw [b64Inv_b64Char _ (by omega)]
    simp
    omega
  | [b1, b2, b3] => by
    intro h
    have hb1 : b1 < 256 := h b1 (by simp)
    have hb2 : b2 < 256 := h b2 (by simp)
    have hb3 : b3 < 256 := h b3 (by simp)
    rw [encodeB64, decodeB64]
    rw [b64Inv_b64Char _ (by omega), b64Inv_b64Char _ (by omega)]
    dsimp only
    rw [if_neg (by simp [b64Char_ne_pad (b2 % 16 * 4 + b3 / 64) (by omega)])]
    rw [if_neg (by simp [b64Char_ne_pad (b3 % 64) (by omega)])]
    rw [b64Inv_b64Char _ (by omega), b64Inv_b64Char _ (by omega)]
    norm_num [show decodeB64 (encodeB64 ([] : List Nat)) = some [] from rfl]
    omega
  | b1 :: b2 :: b3 :: b4 :: rest => by
    intro h
    have hb1 : b1 < 256 := h b1 (by simp)
    have hb2 : b2 < 256 := h b2 (by simp)
    have hb3 : b3 < 256 := h b3 (by simp)
    have ih := decodeB64_encodeB64 (b4 :: rest) (fun b hb => h b (by simp [hb]))
    rw [encodeB64, decodeB64]
    rw [b64Inv_b64Char _ (by omega), b64Inv_b64Char _ (by omega)]
    dsimp only
    rw [if_neg (by simp [b64Char_ne_pad (b2 % 16 * 4 + b3 / 64) (by omega)])]
    rw [if_neg ?hc]
    case hc =>
      intro hcon
      exact b64Char_ne_pad (b3 % 64) (by omega) hcon.1
    rw [b64Inv_b64Char _ (by omega), b64Inv_b64Char _ (by omega), ih]
    simp
    omega

theorem countAlnum_encodeB64 :
    ∀ bs : List Nat, (∀ b ∈ bs, b < 248) →
      (bs.length + 2) / 3 ≤ countAlnum (encodeB64 bs)
  | [] => by intro _; simp [encodeB64]
  | [b1] => by
    intro h
    have hb1 : b1 < 248 := h b1 (by simp)
    have := isAlnum_b64Char (b1 / 4) (by omega)
    simp [encodeB64, countAlnum, List.countP_cons, this]
  | [b1, b2] => by
    intro h
    have hb1 : b1 < 248 := h b1 (by simp)
    have := isAlnum_b64Char (b1 / 4) (by omega)
    simp [encodeB64, countAlnum, List.countP_cons, this]
  | b1 :: b2 :: b3 :: rest => by
    intro h
    have hb1 : b1 < 248 := h b1 (by simp)
    have ih := countAlnum_encodeB64 rest (fun b hb => h b (by simp [hb]))
    have ha := isAlnum_b64Char (b1 / 4) (by omega)
    rw [encodeB64]
    simp only [countAlnum, List.countP_cons, ha, eq_self_iff_true, if_true] at ih ⊢
    have hlen : (b1 :: b2 :: b3 :: rest).length + 2 = rest.length + 2 + 3 := by
      simp
    rw [hlen]
    omega

/-- UTF-8 bytes of a single character, as produced by JS `TextEncoder`. -/
def utf8Char (c : Char) : List Nat :=
  if c.toNat < 128 then [c.toNat]
  else if c.toNat < 2048 then [192 + c.toNat / 64, 128 + c.toNat % 64]
  else if c.toNat < 65536 then
    [224 + c.toNat / 4096, 128 + c.toNat / 64 % 64, 128 + c.toNat % 64]
  else
    [240 + c.toNat / 262144, 128 + c.toNat / 4096 % 64,
     128 + c.toNat / 64 % 64, 128 + c.toNat % 64]

/-- UTF-8 bytes of a character list, as produced by JS `TextEncoder`. -/
def utf8L (l : List Char) : List Nat := (l.map utf8Char).flatten

theorem char_toNat_lt (c : Char) : c.toNat < 1114112 := by
  have hv := c.valid
  rcases hv with h | h
  · have : c.val.toNat < 55296 := h
    simp only [Char.toNat]
    omega
  · obtain ⟨_, h2⟩ := h
    have : c.val.toNat < 1114112 := h2
    simp only [Char.toNat]
    omega

theorem utf8Char_lt_248 (c : Char) : ∀ b ∈ utf8Char c, b < 248 := by
  intro b hb
  have hv := char_toNat_lt c
  unfold utf8Char at hb
  split_ifs at hb <;> simp at hb <;> omega

theorem utf8Char_lt_256 (c : Char) : ∀ b ∈ utf8Char c, b < 256 := by
  intro b hb
  have := utf8Char_lt_248 c b hb
  omega

theorem utf8Char_ne_nil (c : Char) : utf8Char c ≠ [] := by
  unfold utf8Char
  split_ifs <;> simp

theorem utf8L_lt_248 (l : List Char) : ∀ b ∈ utf8L l, b < 248 := by
  intro b hb
  unfold utf8L at hb
  simp only [List.mem_flatten, List.mem_map] at hb
  obtain ⟨m, ⟨c, _, rfl⟩, hbm⟩ := hb
  exact utf8Char_lt_248 c b hbm

theorem utf8L_length_ge (l : List Char) : l.length ≤ (utf8L l).length := by
  induction l with
  | nil => simp [utf8L]
  | cons c rest ih =>
    have h1 : utf8L (c :: rest) = utf8Char c ++ utf8L rest := by
      simp [utf8L]
    have h2 : 1 ≤ (utf8Char c).length := by
      cases he : utf8Char c with
      | nil => exact absurd he (utf8Char_ne_nil c)
      | cons _ _ => simp
    rw [h1]
    simp only [List.length_append, List.length_cons]
    omega

theorem utf8Char_ascii (c : Char) (h : c.toNat < 128) : utf8Char c = [c.toNat] := by
  unfold utf8Char
  rw [if_pos h]

theorem utf8L_ascii (l : List Char) (h : ∀ c ∈ l, c.toNat < 128) :
    utf8L l = l.map Char.toNat := by
  induction l with
  | nil => rfl
  | cons c rest ih =>
    have h1 : utf8L (c :: rest) = utf8Char c ++ utf8L rest := by simp [utf8L]
    rw [h1, utf8Char_ascii c (h c (by simp)), ih (fun d hd => h d (by simp [hd]))]
    simp

/-- JS `btoa` on a list of character codes: fails (throws
`InvalidCharacterError`) when a code exceeds 255. -/
def btoaCodes (codes : List Nat) : Option (List Char) :=
  if codes.all (fun b => b ≤ 255) then some (encodeB64 codes) else none

/-- JS `window.btoa` on a string: fails when a character is outside the
Latin-1 range. -/
def btoaStr (l : List Char) : Option (List Char) := btoaCodes (l.map Char.toNat)

/-- Embedding of `_unicodeSafeBase64Encode` of the direct variant: encode the
string as UTF-8 bytes, then `btoa` them.  The bytes are always below 256, so
the `catch` branch of the source is unreachable. -/
def unicodeSafeB64 (l : List Char) : List Char := encodeB64 (utf8L l)

/-- JS `s.replace(/[^A-Za-z0-9]/g, '')`. -/
def stripNonAlnum (l : List Char) : List Char := l.filter isAlnum

theorem length_stripNonAlnum (l : List Char) :
    (stripNonAlnum l).length = countAlnum l := by
  simp [stripNonAlnum, countAlnum, (List.countP_eq_length_filter _ _).symm]

/-- Customer record attached to an order (`this.partner_id`).  Numeric fields
are in cents, like every JS number of the embedding; a zero id models a falsy
id. -/
structure Partner where
  pname : String
  pid : Int
  company_type : String

/-- Order line, holding the values returned by the line getters used by
`_getStandardizedInvoiceContentForHash` (`get_quantity`, `get_unit_price`,
`get_price_without_tax`, `get_price_with_tax`, `get_tax`) together with the
result of `_getLineTaxRate` (the tax-detail lookup itself is outside the
embedded core). -/
structure LineItem where
  lid : Int
  productName : String
  quantity : Int
  unitPrice : Int
  priceWithoutTax : Int
  priceWithTax : Int
  taxAmount : Int
  taxRate : Int

/-- Payment record (`payment_ids` entries). -/
structure Payment where
  method : String
  amount : Int

/-- Certificate data record; an empty string models an absent (falsy)
field. -/
structure CertRec where
  public_key : String
  certificate_signature : String
  serial_number : String
  certificate_id : String

/-- The certificate-bearing records reachable through `this.models`:
`models['zatca.certificate'].getFirst()`,
`models['pos.config'].getFirst()?.zatca_certificate` and
`models['pos.session'].getFirst()?.zatca_certificate`. -/
structure Models where
  zatcaCertFirst : Option CertRec
  posConfigCert : Option CertRec
  posSessionCert : Option CertRec

/-- The point-of-sale configuration (`this.config`). -/
structure ConfigRec where
  directModeEnabled : Bool
  zatcaCert : Option CertRec

/-- State of one order at QR-generation time.  Date formatting
(`_getZatcaFormattedDate`/`_getZatcaFormattedTime`, and the KSA timestamp
produced by the external `formatDateTime`/`deserializeDateTime` helpers) is
carried as pre-computed fields, `Date.now()`/`new Date().toISOString()` as
explicit clock fields, the external `computeSAQRCode` result and the ZXing
SVG renderer as injected values. -/
structure Order where
  uuid : String
  name : String
  posReference : String
  dateOrder : String
  dateStr : String
  timeStr : String
  companyName : String
  companyVat : String
  countryCode : Option String
  config : Option ConfigRec
  models : Option Models
  partner : Option Partner
  lines : List LineItem
  payments : List Payment
  totalWithTax : Int
  totalWithoutTax : Int
  totalTax : Int
  zxing : Bool
  webCrypto : Bool
  nowMs : Nat
  nowIso : String
  ksaTimestamp : String
  standardQr : String
  to_invoice : Bool
  zatcaStatus : String
  renderQr : String → Option String

/-- Embedding of `this.company?.country_id?.code === "SA"`. -/
def isSACompany (o : Order) : Bool := o.countryCode == some "SA"

/-- Embedding of `this.config?.l10n_sa_edi_pos_direct_mode_enabled`. -/
def directModeFlag (o : Order) : Bool :=
  match o.config with
  | some c => c.directModeEnabled
  | none => false

/-- Embedding of `isSimplifiedInvoice`:
`!this.partner_id || this.partner_id.company_type === 'person'`. -/
def isSimplifiedInvoice (o : Order) : Bool :=
  match o.partner with
  | none => true
  | some p => p.company_type == "person"

/-- Embedding of `_validateZatcaRequirements` (static variant): ZXing
present, WebCrypto present, company name and VAT present; its `catch` is
unreachable here because every check is total. -/
def validateZatcaRequirements (o : Order) : Bool :=
  o.zxing && o.webCrypto && !(o.companyName == "") && !(o.companyVat == "")

/-- Embedding of `shouldUsedirectMode` from the static variant
(`src/static/src/overrides/models/pos_order.js`). -/
def shouldUsedirectModeS (o : Order) : Bool :=
  isSACompany o && directModeFlag o && isSimplifiedInvoice o &&
    validateZatcaRequirements o

/-- Embedding of `shouldUsedirectMode` from the direct variant
(`src/l10n_sa_edi_pos_direct/.../pos_order.js`), which stops after the
simplified-invoice check. -/
def shouldUsedirectModeD (o : Order) : Bool :=
  isSACompany o && directModeFlag o && isSimplifiedInvoice o

/-- Customer name of the invoice content:
`this.partner_id?.name || 'Cash Customer'`. -/
def customerNameOf (o : Order) : String :=
  match o.partner with
  | some p => if p.pname = "" then "Cash Customer" else p.pname
  | none => "Cash Customer"

/-- Customer id of the invoice content: `this.partner_id?.id || null`. -/
def customerIdOf (o : Order) : JVal :=
  match o.partner with
  | some p => if p.pid = 0 then jnull else jnum p.pid
  | none => jnull

/-- Invoice-line object of the invoice content. -/
def lineObj (l : LineItem) : JVal :=
  jobj (JObj.cons "id" (jnum l.lid) (
    JObj.cons "product_name" (jstr l.productName) (
    JObj.cons "quantity" (jnum l.quantity) (
    JObj.cons "unit_price" (jnum l.unitPrice) (
    JObj.cons "line_total_without_tax" (jnum l.priceWithoutTax) (
    JObj.cons "line_total_with_tax" (jnum l.priceWithTax) (
    JObj.cons "tax_amount" (jnum l.taxAmount) (
    JObj.cons "tax_rate" (jnum l.taxRate) JObj.nil))))))))

/-- Payment object of the invoice content. -/
def paymentObj (p : Payment) : JVal :=
  jobj (JObj.cons "method" (jstr p.method) (
    JObj.cons "amount" (jnum p.amount) JObj.nil))

/-- Build a JSON array from a list of values. -/
def jarrOfList : List JVal → JArr
  | [] => JArr.nil
  | v :: t => JArr.cons v (jarrOfList t)

/-- Entry list of `_getStandardizedInvoiceContentForHash`, in the source's
insertion order. -/
def contentObj (o : Order) : JObj :=
  JObj.cons "uuid" (jstr o.uuid) (
  JObj.cons "invoice_number" (jstr o.name) (
  JObj.cons "issue_date" (jstr o.dateStr) (
  JObj.cons "issue_time" (jstr o.timeStr) (
  JObj.cons "seller_name" (jstr o.companyName) (
  JObj.cons "seller_vat" (jstr o.companyVat) (
  JObj.cons "customer_type" (jstr (if o.partner.isSome then "named" else "cash")) (
  JObj.cons "customer_name" (jstr (customerNameOf o)) (
  JObj.cons "customer_id" (customerIdOf o) (
  JObj.cons "line_extension_amount" (jnum o.totalWithoutTax) (
  JObj.cons "tax_exclusive_amount" (jnum o.totalWithoutTax) (
  JObj.cons "tax_inclusive_amount" (jnum o.totalWithTax) (
  JObj.cons "tax_amount" (jnum o.totalTax) (
  JObj.cons "payable_amount" (jnum o.totalWithTax) (
  JObj.cons "invoice_lines" (jarr (jarrOfList (o.lines.map lineObj))) (
  JObj.cons "payment_means" (jarr (jarrOfList (o.payments.map paymentObj)))
    JObj.nil)))))))))))))))

/-- Embedding of `_getStandardizedInvoiceContentForHash` (identical in both
variants). -/
def contentOf (o : Order) : JVal := jobj (contentObj o)

/-- Embedding of `calculateInvoiceHashSync` of the direct variant:
`_unicodeSafeBase64Encode(JSON.stringify(canonical)).replace(/[^A-Za-z0-9]/g,
'').substring(0, 64)`.  Note that `JSON.stringify` is applied to the already
canonical *string*, so the encoded bytes are those of the JSON string
literal (quotes and escapes included), not of the canonical form itself.
Every step is total, so the fallback-hash `catch` is unreachable. -/
def calculateInvoiceHashSyncD (o : Order) : List Char :=
  (stripNonAlnum (unicodeSafeB64 (jsonQuoteL (canonicalizeForZatca (contentOf o))))).take 64

/-- Timestamp of `_prepareSignatureInputSync`:
`this.date_order || new Date().toISOString()`. -/
def sigTimestamp (o : Order) : String :=
  if o.dateOrder = "" then o.nowIso else o.dateOrder

/-- Reference of `_prepareSignatureInputSync`:
`this.pos_reference || this.name`. -/
def sigReference (o : Order) : String :=
  if o.posReference = "" then o.name else o.posReference

/-- Signature-input record of `_prepareSignatureInputSync`, keys in the
source's insertion order. -/
def sigInputObj (hash : List Char) (o : Order) : JVal :=
  jobj (JObj.cons "hash" (jstr hash.asString) (
    JObj.cons "issuer" (jstr o.companyVat) (
    JObj.cons "timestamp" (jstr (sigTimestamp o)) (
    JObj.cons "reference" (jstr (sigReference o)) (
    JObj.cons "amount" (jstr (toFixed2L o.totalWithTax).asString) JObj.nil)))))

/-- Embedding of `generateDigitalSignatureSync` of the direct variant:
hash, serialize the signature input, Unicode-safe encode, strip, truncate to
88, prefix the `ZATCA:` marker.  All steps are total, so no fallback is
reachable. -/
def generateDigitalSignatureSyncD (o : Order) : List Char :=
  "ZATCA:".toList ++
    (stripNonAlnum (unicodeSafeB64 (stringifyV (sigInputObj (calculateInvoiceHashSyncD o) o)))).take 88

/-- Latin-1 test: `btoa` succeeds exactly on such strings. -/
def latin1 (l : List Char) : Bool := l.all (fun c => c.toNat ≤ 255)

/-- Input of the static variant's `btoa` call in `calculateInvoiceHashSync`:
`JSON.stringify(canonicalContent)`. -/
def hashInputS (o : Order) : List Char :=
  jsonQuoteL (canonicalizeForZatca (contentOf o))

/-- Input of `_generateFallbackHash`:
`'ZATCA_FALLBACK_' + uuid + vat + total + Date.now()`. -/
def fallbackHashData (o : Order) : List Char :=
  "ZATCA_FALLBACK_".toList ++ o.uuid.toList ++ o.companyVat.toList ++
    numToStringL o.totalWithTax ++ natDigits o.nowMs

/-- Embedding of `calculateInvoiceHashSync` of the static variant.  `btoa`
throws on non-Latin-1 input; the `catch` falls back to
`_generateFallbackHash`, whose own `btoa` failure propagates
(`Except.error`). -/
def calculateInvoiceHashSyncS (o : Order) : Except Unit (List Char) :=
  match btoaStr (hashInputS o) with
  | some b => .ok ((stripNonAlnum b).take 64)
  | none =>
    match btoaStr (fallbackHashData o) with
    | some b => .ok (b.take 64)
    | none => .error ()

/-- Serialized signature input of the static variant, for a given hash. -/
def dsStringS (hash : List Char) (o : Order) : List Char :=
  stringifyV (sigInputObj hash o)

/-- Input of `_generateFallbackSignature`:
`` `${vat}_${pos_reference}_${total}` ``. -/
def fallbackSigData (o : Order) : List Char :=
  o.companyVat.toList ++ '_' :: o.posReference.toList ++ '_' ::
    numToStringL o.totalWithTax

/-- Embedding of `_generateFallbackSignature` of the static variant: `none`
when its `btoa` throws. -/
def fallbackSigS (o : Order) : Option (List Char) :=
  (btoaStr (fallbackSigData o)).map (fun b => (stripNonAlnum b).take 64)

/-- Embedding of `generateDigitalSignatureSync` of the static variant.  The
inner `catch` of `_generateDeterministicSignatureSync` substitutes the
fallback signature, which the outer code still prefixes with `'ZATCA:'`; a
failure of the fallback itself reaches the outer `catch`, which retries the
fallback and, failing again, lets the error propagate. -/
def generateDigitalSignatureSyncS (o : Order) : Except Unit (List Char) :=
  match calculateInvoiceHashSyncS o with
  | .error _ =>
    match fallbackSigS o with
    | some s => .ok s
    | none => .error ()
  | .ok h =>
    match btoaStr (dsStringS h o) with
    | some b => .ok ("ZATCA:".toList ++ (stripNonAlnum b).take 88)
    | none =>
      match fallbackSigS o with
      | some s => .ok ("ZATCA:".toList ++ s)
      | none =>
        match fallbackSigS o with
        | some s => .ok s
        | none => .error ()

/-- JS `s.substring(0, n)` on the embedding's character lists. -/
def takeS (n : Nat) (s : String) : String := (s.toList.take n).asString

/-- Public key offered by one certificate record
(`cert?.public_key` guarded by truthiness, truncated to 88). -/
def pubOf (c : CertRec) : Option String :=
  if c.public_key = "" then none else some (takeS 88 c.public_key)

/-- Identifying value offered by the session-scoped `zatca.certificate`
record: `certificate_signature || serial_number`, truncated to 88.  The
source does not consult `certificate_id` here. -/
def certSigOf2 (c : CertRec) : Option String :=
  if c.certificate_signature ≠ "" then some (takeS 88 c.certificate_signature)
  else if c.serial_number ≠ "" then some (takeS 88 c.serial_number)
  else none

/-- Identifying value offered by the other certificate sources:
`certificate_signature || serial_number || certificate_id`, truncated
to 88. -/
def certSigOf3 (c : CertRec) : Option String :=
  if c.certificate_signature ≠ "" then some (takeS 88 c.certificate_signature)
  else if c.serial_number ≠ "" then some (takeS 88 c.serial_number)
  else if c.certificate_id ≠ "" then some (takeS 88 c.certificate_id)
  else none

/-- Placeholder public key of the static variant:
`btoa('ZATCA_PUBLIC_KEY_' + vat).substring(0, 64)`, or the `Date.now()`
string when that `btoa` throws. -/
def pubPlaceholderS (o : Order) : String :=
  match btoaStr ("ZATCA_PUBLIC_KEY_".toList ++ o.companyVat.toList) with
  | some b => (b.take 64).asString
  | none => "DEFAULT_PUBLIC_KEY_" ++ ((natDigits o.nowMs).take 32).asString

/-- Placeholder public key of the direct variant (Unicode-safe encoding,
total). -/
def pubPlaceholderD (o : Order) : String :=
  ((unicodeSafeB64 ("ZATCA_PUBLIC_KEY_".toList ++ o.companyVat.toList)).take 64).asString

/-- Placeholder identifying value of the static variant. -/
def certPlaceholderS (o : Order) : String :=
  match btoaStr ("ZATCA_CERT_".toList ++ o.companyVat.toList) with
  | some b => (b.take 64).asString
  | none => "DEFAULT_CERT_SIG_" ++ ((natDigits o.nowMs).take 32).asString

/-- Placeholder identifying value of the direct variant. -/
def certPlaceholderD (o : Order) : String :=
  ((unicodeSafeB64 ("ZATCA_CERT_".toList ++ o.companyVat.toList)).take 64).asString

/-- The tail of both certificate getters: the direct
`this.config.zatca_certificate` check, then the placeholder. -/
def certFromConfig (field : CertRec → Option String) (o : Order)
    (placeholder : String) : String :=
  match o.config with
  | some cf =>
    match cf.zatcaCert with
    | some c =>
      match field c with
      | some s => s
      | none => placeholder
    | none => placeholder
  | none => placeholder

/-- Sequential source checks of `getPublicKeySync`: the session-scoped
`zatca.certificate` record, then the `pos.config` record, then the
`pos.session` record (all inside `if (this.models)`), then
`this.config.zatca_certificate`, then the placeholder. -/
def pubCascade (o : Order) (placeholder : String) : String :=
  match o.models with
  | some m =>
    match m.zatcaCertFirst.bind pubOf with
    | some s => s
    | none =>
      match m.posConfigCert.bind pubOf with
      | some s => s
      | none =>
        match m.posSessionCert.bind pubOf with
        | some s => s
        | none => certFromConfig pubOf o placeholder
  | none => certFromConfig pubOf o placeholder

/-- Sequential source checks of `getCertificateSignatureSync`: identical
shape, except that the `zatca.certificate` source only offers
`certificate_signature`/`serial_number`. -/
def certSigCascade (o : Order) (placeholder : String) : String :=
  match o.models with
  | some m =>
    match m.zatcaCertFirst.bind certSigOf2 with
    | some s => s
    | none =>
      match m.posConfigCert.bind certSigOf3 with
      | some s => s
      | none =>
        match m.posSessionCert.bind certSigOf3 with
        | some s => s
        | none => certFromConfig certSigOf3 o placeholder
  | none => certFromConfig certSigOf3 o placeholder

/-- Embedding of `getPublicKeySync` of the static variant. -/
def getPublicKeySyncS (o : Order) : String := pubCascade o (pubPlaceholderS o)

/-- Embedding of `getPublicKeySync` of the direct variant. -/
def getPublicKeySyncD (o : Order) : String := pubCascade o (pubPlaceholderD o)

/-- Embedding of `getCertificateSignatureSync` of the static variant. -/
def getCertificateSignatureSyncS (o : Order) : String :=
  certSigCascade o (certPlaceholderS o)

/-- Embedding of `getCertificateSignatureSync` of the direct variant. -/
def getCertificateSignatureSyncD (o : Order) : String :=
  certSigCascade o (certPlaceholderD o)

/-- Embedding of the direct variant's `_compute_qr_code_field` (also the
loop body of the static `_convertQRDataToBase64String`): one tag entry, one
length entry holding the raw UTF-8 byte count, then the UTF-8 bytes. -/
def compute_qr_code_field (tag : Nat) (field : String) : List Nat :=
  tag :: (utf8L field.toList).length :: utf8L field.toList

/-- Concatenated TLV entries of an ordered field list. -/
def encodeFields : List (Nat × String) → List Nat
  | [] => []
  | (t, v) :: rest => compute_qr_code_field t v ++ encodeFields rest

/-- JS `String.fromCharCode` applied entrywise when the byte array is turned
into a binary string: values are reduced modulo 2^16 (`ToUint16`). -/
def fromCharCodes (l : List Nat) : List Nat := l.map (fun b => b % 65536)

/-- The byte-array-to-base64 step shared by `generateEnhancedQRDataSync` and
`_convertQRDataToBase64String`: build the binary string through
`String.fromCharCode` and pass it to `btoa` (which throws on code points
above 255). -/
def tlvBase64 (fs : List (Nat × String)) : Option (List Char) :=
  btoaCodes (fromCharCodes (encodeFields fs))

/-- Decoder of the TLV payload, modelled from the spec (§4.6, §8): read one
tag entry, one length entry, then that many value bytes, repeatedly. -/
def parseTLV : List Nat → Option (List (Nat × Nat × List Nat))
  | [] => some []
  | _ :: [] => none
  | t :: n :: rest =>
    if n ≤ rest.length then
      match parseTLV (rest.drop n) with
      | some triples => some ((t, n, rest.take n) :: triples)
      | none => none
    else none
termination_by l => l.length
decreasing_by
  have := List.length_drop n rest
  simp only [List.length_cons]
  omega

/-- Base64-decode a TLV payload and parse it, modelled from the spec
("decoding the buffer produced by encode"). -/
def decodeQRPayload (payload : List Char) : Option (List (Nat × Nat × List Nat)) :=
  match decodeB64 payload with
  | some bytes => parseTLV bytes
  | none => none

/-- Embedding of `generateEnhancedQRDataSync` of the direct variant: the nine
TLV fields, the `fromCharCode`/`btoa` rendering, and the `catch` that falls
back to the external `computeSAQRCode` (injected as `standardQr`). -/
def generateEnhancedQRDataSyncD (o : Order) (sellerName vat : String)
    (amountTotal amountTax : Int) : List Char :=
  match tlvBase64
      [(1, sellerName), (2, vat), (3, o.ksaTimestamp),
       (4, (numToStringL amountTotal).asString),
       (5, (numToStringL amountTax).asString),
       (6, (calculateInvoiceHashSyncD o).asString),
       (7, (generateDigitalSignatureSyncD o).asString),
       (8, getPublicKeySyncD o), (9, getCertificateSignatureSyncD o)] with
  | some b => b
  | none => o.standardQr.toList

/-- The nine `qr_values` fields produced by the static variant's
`generateQRDataSync`. -/
structure QrValues where
  f1 : String
  f2 : String
  f3 : String
  f4 : String
  f5 : String
  f6 : String
  f7 : String
  f8 : String
  f9 : String

/-- Field 3 of the static variant:
`this.date_order || new Date().toISOString()`. -/
def qrTimestamp (o : Order) : String :=
  if o.dateOrder = "" then o.nowIso else o.dateOrder

/-- Embedding of `generateQRDataSync` of the static variant: the validation
throws are caught by its own `catch` (returning `null`, here `none`), as are
errors propagating out of the hash/signature stages. -/
def generateQRDataSyncS (o : Order) : Option QrValues :=
  if o.companyName = "" ∨ o.companyVat = "" then none
  else if o.uuid = "" then none
  else
    match calculateInvoiceHashSyncS o, generateDigitalSignatureSyncS o with
    | .ok h, .ok s =>
      some ⟨o.companyName, o.companyVat, qrTimestamp o,
        (toFixed2L o.totalWithTax).asString, (toFixed2L o.totalTax).asString,
        h.asString, s.asString, getPublicKeySyncS o, getCertificateSignatureSyncS o⟩
    | _, _ => none

/-- Embedding of `_convertQRDataToBase64String` of the static variant: its
own `catch` converts a `btoa` failure (e.g. a length entry above 255 after
`ToUint16`) into the empty string. -/
def convertQRDataToBase64String (qv : QrValues) : List Char :=
  match tlvBase64
      [(1, qv.f1), (2, qv.f2), (3, qv.f3), (4, qv.f4), (5, qv.f5),
       (6, qv.f6), (7, qv.f7), (8, qv.f8), (9, qv.f9)] with
  | some b => b
  | none => []

/-- The constant fallback SVG template of `generateZatcaQRSync`. -/
def simpleSvgChars : List Char :=
  "\n                        <svg xmlns=\"http://www.w3.org/2000/svg\" viewBox=\"0 0 100 100\">\n                            <rect width=\"100\" height=\"100\" fill=\"white\"/>\n                            <text x=\"50\" y=\"50\" text-anchor=\"middle\" font-size=\"8\" fill=\"black\">QR</text>\n                        </svg>\n                    ".toList

/-- The `try` body of `generateZatcaQRSync` (static variant): any failure —
ZXing missing, `generateQRDataSync` returning `null`, the SVG renderer
throwing, or `btoa` failing on the rendered SVG — surfaces as an error to be
caught. -/
def generateZatcaQRSyncMainS (o : Order) : Except Unit (List Char) :=
  if ¬ o.zxing then .error ()
  else
    match generateQRDataSyncS o with
    | none => .error ()
    | some qv =>
      match o.renderQr (convertQRDataToBase64String qv).asString with
      | none => .error ()
      | some svg =>
        match btoaStr svg.toList with
        | some b => .ok ("data:image/svg+xml;base64,".toList ++ b)
        | none => .error ()

/-- The `catch` block of `generateZatcaQRSync`: regenerate the QR values and
return a constant data URL, with an inner `catch` absorbing any failure, then
`null`. -/
def generateZatcaQRSyncCatchS (o : Order) : Except Unit (Option (List Char)) :=
  match generateQRDataSyncS o with
  | some _ =>
    match btoaStr simpleSvgChars with
    | some b => .ok (some ("data:image/svg+xml;base64,".toList ++ b))
    | none => .ok none
  | none => .ok none

/-- Embedding of `generateZatcaQRSync` of the static variant. -/
def generateZatcaQRSyncS (o : Order) : Except Unit (Option (List Char)) :=
  if ¬ (isSACompany o && validateZatcaRequirements o) then .ok none
  else
    match generateZatcaQRSyncMainS o with
    | .ok s => .ok (some s)
    | .error _ => generateZatcaQRSyncCatchS o

deriving instance DecidableEq for Except

/-- Boolean success test for the exception embedding. -/
def isOkE {ε α : Type} : Except ε α → Bool
  | .ok _ => true
  | .error _ => false

/-- Receipt header data handled by the store override. -/
structure HeaderData where
  qr_code : Option (List Char)
  zatca_direct : Bool
  zatca_enhanced : Option Bool
  zatca_fields : Option Nat

/-- Embedding of `getReceiptHeaderData` of the static `pos_store.js`: the
enhanced QR replaces the standard one only when generation yields a value;
a `null` result or a caught error keeps the base data unchanged. -/
def getReceiptHeaderDataS (o : Order) (base : HeaderData) : HeaderData :=
  if shouldUsedirectModeS o then
    match generateZatcaQRSyncS o with
    | .ok (some q) => { base with qr_code := some q, zatca_direct := true }
    | .ok none => base
    | .error _ => base
  else
    match base.qr_code with
    | some _ => { base with zatca_enhanced := some false, zatca_fields := some 5 }
    | none => base

/-- Embedding of `setup` of the direct variant (after `super.setup`): in
direct mode only the ZATCA status is initialised; otherwise a Saudi company's
order is forced to invoicing. -/
def setupD (o : Order) (statusArg : String) : Order :=
  if isSACompany o && shouldUsedirectModeD o then { o with zatcaStatus := statusArg }
  else if isSACompany o then { o with to_invoice := true }
  else o

/-- Embedding of `is_to_invoice` of the direct variant; the base behaviour
(`super.is_to_invoice`) reads the `to_invoice` flag. -/
def is_to_invoiceD (o : Order) : Bool :=
  if isSACompany o && shouldUsedirectModeD o then false
  else if isSACompany o then true
  else o.to_invoice

/-- Embedding of `set_to_invoice` of the direct variant; the base behaviour
stores the given flag. -/
def set_to_invoiceD (o : Order) (v : Bool) : Order :=
  if isSACompany o && !(shouldUsedirectModeD o) then { o with to_invoice := true }
  else { o with to_invoice := v }

/-- Mode predicate described by claim C1: jurisdiction, flag, simplified
invoice, both capability probes, and both company fields. -/
def claimModeConditions (o : Order) : Bool :=
  isSACompany o && directModeFlag o && isSimplifiedInvoice o &&
    o.zxing && o.webCrypto && !(o.companyName == "") && !(o.companyVat == "")

/-- Fingerprint described by claim C3: the encode-strip-truncate transform
applied to the CanonicalForm's own bytes (without the `JSON.stringify`
string-literal wrapping the source performs). -/
def claimFingerprintC3 (o : Order) : List Char :=
  (stripNonAlnum (unicodeSafeB64 (canonicalizeForZatca (contentOf o)))).take 64

/-- Fallback signature described by claim C4: encoding of
{issuer tax number, transaction reference, tax-inclusive amount}, truncated
to 64 characters, with no marker. -/
def claimFallbackSig (o : Order) : List Char :=
  (stripNonAlnum (encodeB64 ((fallbackSigData o).map Char.toNat))).take 64

/-- Signature behaviour as amended for claim C4, phrased by Latin-1
encodability of each stage input instead of by the internal `btoa` results:
on a clean run the marker plus the 88-character deterministic encoding; when
only the final encoding fails, the marker is still prefixed to the
64-character fallback encoding; when the fingerprint stage itself failed,
the markerless fallback encoding; when the fallback data is itself not
encodable, an error escapes. -/
def genSigSpecS (o : Order) : Except Unit (List Char) :=
  match calculateInvoiceHashSyncS o with
  | .ok h =>
    if latin1 (dsStringS h o) then
      .ok ("ZATCA:".toList ++
        (stripNonAlnum (encodeB64 ((dsStringS h o).map Char.toNat))).take 88)
    else if latin1 (fallbackSigData o) then
      .ok ("ZATCA:".toList ++ claimFallbackSig o)
    else .error ()
  | .error _ =>
    if latin1 (fallbackSigData o) then .ok (claimFallbackSig o)
    else .error ()

/-- Certificate-identifying value described by claim C7: among the three
listed sources the first offering *any* of the three identifying fields
wins, and within the chosen source the order is signature, serial number,
identifier — for every source, including `zatca.certificate`. -/
def claimCertResolve (o : Order) : Option String :=
  o.models.bind fun m =>
    (m.zatcaCertFirst.bind certSigOf3) <|> (m.posConfigCert.bind certSigOf3) <|>
      (m.posSessionCert.bind certSigOf3)

/-- Public-key resolution described by claim C7 (and kept by the amended
claim): first source with a non-empty public key wins, truncated to 88. -/
def claimPubResolve (o : Order) : Option String :=
  o.models.bind fun m =>
    (m.zatcaCertFirst.bind pubOf) <|> (m.posConfigCert.bind pubOf) <|>
      (m.posSessionCert.bind pubOf)

/-- Identifying-value resolution as amended for claim C7: the session-scoped
`zatca.certificate` record only offers signature and serial number; the
remaining sources offer all three fields; `this.config.zatca_certificate` is
a fourth source after the three listed ones; the placeholder chain closes
the cascade. -/
def certSigSpecAmended (o : Order) : String :=
  ((claimCertResolveAmended o) <|>
    ((o.config.bind fun cf => cf.zatcaCert).bind certSigOf3)).getD
    (certPlaceholderS o)
where
  claimCertResolveAmended (o : Order) : Option String :=
    o.models.bind fun m =>
      (m.zatcaCertFirst.bind certSigOf2) <|> (m.posConfigCert.bind certSigOf3) <|>
        (m.posSessionCert.bind certSigOf3)

/-- Public-key resolution as amended for claim C7 (the claimed three-source
priority, completed by the config source and the placeholder chain). -/
def pubKeySpecAmended (o : Order) : String :=
  ((claimPubResolve o) <|> ((o.config.bind fun cf => cf.zatcaCert).bind pubOf)).getD
    (pubPlaceholderS o)

/-- Concrete sample order used by the concrete theorems: a Saudi company
with direct mode enabled, a cash customer, no lines or payments. -/
def baseOrder : Order where
  uuid := "u1"
  name := "Order 001"
  posReference := "REF1"
  dateOrder := "2024-01-02 03:04:05"
  dateStr := "2024-01-02"
  timeStr := "03:04:05"
  companyName := "Acme"
  companyVat := "300000000000003"
  countryCode := some "SA"
  config := some { directModeEnabled := true, zatcaCert := none }
  models := none
  partner := none
  lines := []
  payments := []
  totalWithTax := 11500
  totalWithoutTax := 10000
  totalTax := 1500
  zxing := true
  webCrypto := true
  nowMs := 1700000000000
  nowIso := "2024-01-01T00:00:00.000Z"
  ksaTimestamp := "2024-01-02 06:04:05"
  standardQr := "STDQR"
  to_invoice := false
  zatcaStatus := ""
  renderQr := fun _ => none

/-- Counterexample order for claim C1: Saudi company, enhanced flag on, cash
customer, but ZXing unavailable and the company VAT missing. -/
def cexModeOrder : Order :=
  { baseOrder with zxing := false, companyVat := "" }

/-- Claim C1 (counterexample): the direct variant's `shouldUsedirectMode`
returns true even though the capability probe fails and the company VAT is
missing, so the claimed if-and-only-if characterisation fails on it. -/
theorem C1_counterexample :
    shouldUsedirectModeD cexModeOrder = true ∧
      claimModeConditions cexModeOrder = false := by
  constructor <;> decide

/-- Claim C1 (amended): the static variant's `shouldUsedirectMode` is
equivalent to the claimed conjunction of jurisdiction, flag,
simplified-invoice, capability and company-field conditions; the direct
variant's `shouldUsedirectMode` checks only jurisdiction, flag and
simplified-invoice, omitting the capability and company-field checks. -/
theorem C1_mode_selector_amended (o : Order) :
    shouldUsedirectModeS o = claimModeConditions o ∧
      shouldUsedirectModeD o =
        (isSACompany o && directModeFlag o && isSimplifiedInvoice o) := by
  constructor
  · simp [shouldUsedirectModeS, claimModeConditions, validateZatcaRequirements,
      Bool.and_assoc]
  · rfl

/-- Sample content object with keys inserted in the order b, a. -/
def sampleObjBA : JVal :=
  jobj (JObj.cons "b" (jnum 100) (JObj.cons "a" (jstr "x") JObj.nil))

/-- The same content object with keys inserted in the order a, b. -/
def sampleObjAB : JVal :=
  jobj (JObj.cons "a" (jstr "x") (JObj.cons "b" (jnum 100) JObj.nil))

/-- Claim C2: canonicalization is order-independent — structurally equal
content objects (same key-value mapping at every depth, arrays compared
element-wise in order, object keys in any insertion order) produce identical
`_canonicalizeForZatca` output strings. -/
theorem C2_canonicalization_order_independent (v w : JVal)
    (hwf : wfV v = true) (h : seqV v w = true) :
    canonicalizeForZatca v = canonicalizeForZatca w := by
  unfold canonicalizeForZatca
  rw [seqV_sortV v w h hwf]

/-- Witness for claim C2 at a concrete pair of reordered objects. -/
theorem C2_witness :
    wfV sampleObjBA = true ∧ seqV sampleObjBA sampleObjAB = true ∧
      canonicalizeForZatca sampleObjBA = canonicalizeForZatca sampleObjAB := by
  refine ⟨by decide, ?_, ?_⟩
  · simp [sampleObjBA, sampleObjAB, seqV, seqO, seqA, extractO]
  · exact C2_canonicalization_order_independent _ _ (by decide)
      (by simp [sampleObjBA, sampleObjAB, seqV, seqO, seqA, extractO])

/-- Clock update: the same order state observed at a different wall-clock
reading. -/
def setClock (o : Order) (ms : Nat) (iso : String) : Order :=
  { o with nowMs := ms, nowIso := iso }

/-- Claim C9: with the issue timestamp present, the direct variant's
fingerprint and signature are identical across runs at different wall-clock
readings (and the direct variant's main path cannot fall back at all). -/
theorem C9_deterministic (o : Order) (ms₁ ms₂ : Nat) (iso₁ iso₂ : String)
    (h : o.dateOrder ≠ "") :
    calculateInvoiceHashSyncD (setClock o ms₁ iso₁) =
      calculateInvoiceHashSyncD (setClock o ms₂ iso₂) ∧
    generateDigitalSignatureSyncD (setClock o ms₁ iso₁) =
      generateDigitalSignatureSyncD (setClock o ms₂ iso₂) := by
  have hc : ∀ (ms : Nat) (iso : String), contentOf (setClock o ms iso) = contentOf o := by
    intro ms iso
    simp [contentOf, contentObj, setClock, customerNameOf, customerIdOf]
  have hh : ∀ (ms : Nat) (iso : String),
      calculateInvoiceHashSyncD (setClock o ms iso) = calculateInvoiceHashSyncD o := by
    intro ms iso
    simp [calculateInvoiceHashSyncD, hc]
  have hsi : ∀ (ms : Nat) (iso : String) (hash : List Char),
      sigInputObj hash (setClock o ms iso) = sigInputObj hash o := by
    intro ms iso hash
    simp [sigInputObj, sigTimestamp, sigReference, setClock, h]
  constructor
  · rw [hh, hh]
  · simp [generateDigitalSignatureSyncD, hh, hsi]

/-- Witness for claim C9 at a concrete order and two clock readings. -/
theorem C9_witness :
    baseOrder.dateOrder ≠ "" ∧
      (calculateInvoiceHashSyncD (setClock baseOrder 1 "t1") =
        calculateInvoiceHashSyncD (setClock baseOrder 2 "t2") ∧
      generateDigitalSignatureSyncD (setClock baseOrder 1 "t1") =
        generateDigitalSignatureSyncD (setClock baseOrder 2 "t2")) :=
  ⟨by decide, C9_deterministic baseOrder 1 2 "t1" "t2" (by decide)⟩

/-- Claim C10: for Saudi companies the direct variant forces the
direct-mode/invoicing dichotomy — in direct mode `is_to_invoice` is false;
otherwise `setup` forces `to_invoice`, `is_to_invoice` answers true and
`set_to_invoice` coerces every requested value to true; non-Saudi orders
keep the base behaviour. -/
theorem C10_invoice_mode_invariant (o : Order) (s : String) (v : Bool) :
    is_to_invoiceD o =
      (isSACompany o && !(shouldUsedirectModeD o) ||
        !(isSACompany o) && o.to_invoice) ∧
    (setupD o s).to_invoice =
      (if isSACompany o && !(shouldUsedirectModeD o) then true else o.to_invoice) ∧
    (set_to_invoiceD o v).to_invoice =
      (if isSACompany o && !(shouldUsedirectModeD o) then true else v) := by
  cases h1 : isSACompany o <;> cases h2 : shouldUsedirectModeD o <;>
    simp_all [is_to_invoiceD, setupD, set_to_invoiceD]

theorem certFromConfig_eq (field : CertRec → Option String) (o : Order)
    (ph : String) :
    certFromConfig field o ph =
      (((o.config.bind fun cf => cf.zatcaCert).bind field).getD ph) := by
  unfold certFromConfig
  rcases hc : o.config with _ | cf
  · simp [hc]
  · rcases hz : cf.zatcaCert with _ | c
    · simp [hc, hz]
    · cases hf : field c <;> simp [hc, hz, hf]

/-- Counterexample order for claim C7: the session-scoped
`zatca.certificate` record carries only a `certificate_id`, while the
`pos.config` record carries a `certificate_signature`. -/
def cexCertOrder : Order :=
  { baseOrder with
    models := some
      { zatcaCertFirst := some
          { public_key := "", certificate_signature := "", serial_number := "",
            certificate_id := "ZC" }
        posConfigCert := some
          { public_key := "", certificate_signature := "PC", serial_number := "",
            certificate_id := "" }
        posSessionCert := none } }

/-- Claim C7 (counterexample): with a session-scoped record carrying only a
certificate identifier, the source skips that record (it never consults
`certificate_id` there) and answers from the configuration record, while the
claimed priority would answer the session-scoped identifier. -/
theorem C7_counterexample :
    getCertificateSignatureSyncS cexCertOrder = "PC" ∧
      claimCertResolve cexCertOrder = some "ZC" := by
  constructor <;> decide

/-- Claim C7 (amended): both getters follow the source priority
`zatca.certificate` record, then `pos.config` certificate, then
`pos.session` certificate, then the `this.config.zatca_certificate` check,
then the placeholder chain, the first source yielding a value winning, every
found value truncated to 88 characters; within a source the identifying
value tries certificate-signature, then serial-number, then
certificate-identifier, except that the session-scoped `zatca.certificate`
record never offers its certificate-identifier. -/
theorem C7_certificate_resolution_amended (o : Order) :
    getCertificateSignatureSyncS o = certSigSpecAmended o ∧
      getPublicKeySyncS o = pubKeySpecAmended o := by
  constructor
  · unfold getCertificateSignatureSyncS certSigCascade certSigSpecAmended
      certSigSpecAmended.claimCertResolveAmended
    rcases o.models with _ | m
    · simp [certFromConfig_eq]
    · cases h1 : m.zatcaCertFirst.bind certSigOf2 <;>
        cases h2 : m.posConfigCert.bind certSigOf3 <;>
        cases h3 : m.posSessionCert.bind certSigOf3 <;>
        simp [h1, h2, h3, certFromConfig_eq]
  · unfold getPublicKeySyncS pubCascade pubKeySpecAmended claimPubResolve
    rcases o.models with _ | m
    · simp [certFromConfig_eq]
    · cases h1 : m.zatcaCertFirst.bind pubOf <;>
        cases h2 : m.posConfigCert.bind pubOf <;>
        cases h3 : m.posSessionCert.bind pubOf <;>
        simp [h1, h2, h3, certFromConfig_eq]

/-- Counterexample order for claim C8: a company VAT outside the Latin-1
range makes every `btoa` in the static hash/signature stages throw,
including their fallbacks. -/
def cexStageOrder : Order := { baseOrder with companyVat := "س" }

set_option maxRecDepth 100000 in
/-- Claim C8 (counterexample): the signature stage of the static variant
does not catch its own failure — its fallback encoding throws as well and
the error escapes the stage — while the top-level QR generator still returns
normally (with `null`). -/
theorem C8_counterexample :
    generateDigitalSignatureSyncS cexStageOrder = .error () ∧
      generateZatcaQRSyncS cexStageOrder = .ok none := by
  constructor <;> decide

/-- Claim C8 (amended): no error reaches the receipt-rendering caller — the
top-level `generateZatcaQRSync` always returns a value (possibly `null`),
because `generateQRDataSync` absorbs any hash/signature stage error
(returning `null`) and the top-level `catch` block is itself total; however
it is not true that every stage catches its own failures (see the
counterexample). -/
theorem C8_pipeline_total_amended (o : Order) :
    isOkE (generateZatcaQRSyncS o) = true ∧
      (generateQRDataSyncS o = none ∨
        (isOkE (calculateInvoiceHashSyncS o) = true ∧
         isOkE (generateDigitalSignatureSyncS o) = true)) := by
  constructor
  · unfold generateZatcaQRSyncS
    split_ifs
    · cases generateZatcaQRSyncMainS o with
      | ok s => rfl
      | error e =>
        unfold generateZatcaQRSyncCatchS
        rcases hq : generateQRDataSyncS o with _ | qv
        · simp [hq, isOkE]
        · rcases hb : btoaStr simpleSvgChars with _ | b <;> simp [hq, hb, isOkE]
    · rfl
  · unfold generateQRDataSyncS
    split_ifs
    · exact Or.inl rfl
    · exact Or.inl rfl
    · cases hh : calculateInvoiceHashSyncS o <;>
        cases hs : generateDigitalSignatureSyncS o <;>
        simp [isOkE]

theorem btoaStr_eq (l : List Char) :
    btoaStr l = if latin1 l then some (encodeB64 (l.map Char.toNat)) else none := by
  unfold btoaStr btoaCodes latin1
  have hmap : ∀ m : List Char, (m.map Char.toNat).all (fun b => decide (b ≤ 255)) =
      m.all (fun c => decide (c.toNat ≤ 255)) := by
    intro m
    induction m with
    | nil => rfl
    | cons c t ih => simp [List.all_cons, ih]
  rw [hmap]

/-- Counterexample order for claim C4: a raw `date_order` outside the
Latin-1 range, so the deterministic-signature `btoa` throws while every
other `btoa` in the chain succeeds. -/
def cexSigOrder : Order := { baseOrder with dateOrder := "س" }

/-- Test of the failure mode exercised by the C4 counterexample: the hash
stage succeeded and the deterministic-signature `btoa` failed. -/
def sigMainEncodeFailed (o : Order) : Bool :=
  match calculateInvoiceHashSyncS o with
  | .ok h => (btoaStr (dsStringS h o)).isNone
  | .error _ => false

set_option maxRecDepth 100000 in
/-- Claim C4 (counterexample): when the deterministic-signature encoding
fails, the static variant still prefixes the `ZATCA:` marker to the
64-character fallback encoding, so the result is not the claimed markerless
fallback value. -/
theorem C4_counterexample :
    sigMainEncodeFailed cexSigOrder = true ∧
      generateDigitalSignatureSyncS cexSigOrder =
        .ok ("ZATCA:".toList ++ claimFallbackSig cexSigOrder) ∧
      generateDigitalSignatureSyncS cexSigOrder ≠
        .ok (claimFallbackSig cexSigOrder) := by
  refine ⟨by decide, by decide, by decide⟩

/-- Claim C4 (amended): on a clean run the signature is the `ZATCA:` marker
plus the stable-key-order serialization of {fingerprint, issuer tax number,
timestamp, transaction reference, amount to 2 decimals}, base64-encoded,
stripped of non-alphanumerics and truncated to 88 characters; when only that
final encoding fails, the marker is still prefixed to the 64-character
fallback encoding of {issuer tax number, transaction reference,
tax-inclusive amount}; the markerless fallback appears only when the
fingerprint stage itself threw; and when the fallback data is itself not
encodable the error propagates out of the stage. -/
theorem C4_signature_amended (o : Order) :
    generateDigitalSignatureSyncS o = genSigSpecS o := by
  cases hh : calculateInvoiceHashSyncS o with
  | ok h =>
    unfold generateDigitalSignatureSyncS genSigSpecS fallbackSigS claimFallbackSig
    rw [hh]
    dsimp only
    rw [btoaStr_eq (dsStringS h o), btoaStr_eq (fallbackSigData o)]
    by_cases hl : latin1 (dsStringS h o) <;>
      by_cases hf : latin1 (fallbackSigData o) <;> simp [hl, hf]
  | error e =>
    unfold generateDigitalSignatureSyncS genSigSpecS fallbackSigS claimFallbackSig
    rw [hh]
    dsimp only
    rw [btoaStr_eq (fallbackSigData o)]
    by_cases hf : latin1 (fallbackSigData o) <;> simp [hf]

theorem utf8L_cons (c : Char) (t : List Char) :
    utf8L (c :: t) = utf8Char c ++ utf8L t := by
  simp [utf8L]

theorem encodeFields_bound (fs : List (Nat × String))
    (h : ∀ p ∈ fs, p.1 ≤ 255 ∧ (utf8L p.2.toList).length ≤ 255) :
    ∀ b ∈ encodeFields fs, b ≤ 255 := by
  induction fs with
  | nil => intro b hb; simp [encodeFields] at hb
  | cons p fs' ih =>
    intro b hb
    obtain ⟨tg, v⟩ := p
    rw [encodeFields] at hb
    rcases List.mem_append.mp hb with hb | hb
    · unfold compute_qr_code_field at hb
      rcases List.mem_cons.mp hb with h1 | hb
      · rw [h1]
        exact (h (tg, v) (by simp)).1
      · rcases List.mem_cons.mp hb with h2 | hb
        · rw [h2]
          exact (h (tg, v) (by simp)).2
        · have := utf8L_lt_248 v.toList b hb
          omega
    · exact ih (fun q hq => h q (by simp [hq])) b hb

theorem fromCharCodes_id (l : List Nat) (h : ∀ b ∈ l, b ≤ 255) :
    fromCharCodes l = l := by
  induction l with
  | nil => rfl
  | cons b t ih =>
    have hb := h b (by simp)
    have : b % 65536 = b := Nat.mod_eq_of_lt (by omega)
    simp [fromCharCodes, this]
    exact ih (fun q hq => h q (by simp [hq]))

theorem parseTLV_encodeFields :
    ∀ fs : List (Nat × String),
      parseTLV (encodeFields fs) =
        some (fs.map fun p => (p.1, (utf8L p.2.toList).length, utf8L p.2.toList))
  | [] => by simp [encodeFields, parseTLV]
  | (t, v) :: fs' => by
    have ih := parseTLV_encodeFields fs'
    rw [encodeFields]
    unfold compute_qr_code_field
    rw [List.cons_append, List.cons_append, parseTLV]
    rw [if_pos (by simp)]
    rw [List.drop_left, List.take_left, ih]
    simp

/-- Claim C5: TLV encoding round-trips — for every ordered field list whose
values are at most 255 UTF-8 bytes (and whose tags fit a byte, as the nine
source tags do), the `fromCharCode`/`btoa` rendering succeeds, and decoding
the produced base64 buffer recovers exactly the (tag, byte length, bytes)
triples in order. -/
theorem C5_tlv_roundtrip (fs : List (Nat × String))
    (h : ∀ p ∈ fs, p.1 ≤ 255 ∧ (utf8L p.2.toList).length ≤ 255) :
    tlvBase64 fs = some (encodeB64 (encodeFields fs)) ∧
      decodeQRPayload (encodeB64 (encodeFields fs)) =
        some (fs.map fun p => (p.1, (utf8L p.2.toList).length, utf8L p.2.toList)) := by
  have hb := encodeFields_bound fs h
  constructor
  · unfold tlvBase64 btoaCodes
    rw [fromCharCodes_id _ hb]
    rw [if_pos ?hall]
    case hall =>
      rw [List.all_eq_true]
      intro b hbm
      simpa using hb b hbm
  · unfold decodeQRPayload
    rw [decodeB64_encodeB64 _ (fun b hbm => by have := hb b hbm; omega)]
    exact parseTLV_encodeFields fs

/-- Witness for claim C5 at a concrete two-field list. -/
theorem C5_witness :
    (∀ p ∈ ([(1, "AB"), (2, "c")] : List (Nat × String)),
        p.1 ≤ 255 ∧ (utf8L p.2.toList).length ≤ 255) ∧
      (tlvBase64 [(1, "AB"), (2, "c")] =
          some (encodeB64 (encodeFields [(1, "AB"), (2, "c")])) ∧
        decodeQRPayload (encodeB64 (encodeFields [(1, "AB"), (2, "c")])) =
          some (([(1, "AB"), (2, "c")] : List (Nat × String)).map
            fun p => (p.1, (utf8L p.2.toList).length, utf8L p.2.toList))) :=
  ⟨by decide, C5_tlv_roundtrip _ (by decide)⟩

theorem utf8L_replicate_a (n : Nat) :
    utf8L (List.replicate n 'a') = List.replicate n 97 := by
  induction n with
  | zero => rfl
  | succ n ih =>
    rw [List.replicate_succ, utf8L_cons, ih, List.replicate_succ]
    rfl

set_option maxRecDepth 10000 in
/-- Claim C6: a field whose UTF-8 byte count is 65536 (which exceeds 255)
still renders to a base64 payload — `String.fromCharCode` reduces the raw
length value modulo 2^16, so the length entry of the payload is the
truncated value 0 and `btoa` does not raise. -/
theorem C6_tlv_length_overflow :
    (utf8L (List.replicate 65536 'a').asString.toList).length = 65536 ∧
      255 < (utf8L (List.replicate 65536 'a').asString.toList).length ∧
      tlvBase64 [(1, (List.replicate 65536 'a').asString)] =
        some (encodeB64 (1 :: 0 :: List.replicate 65536 97)) ∧
      (1 :: 0 :: List.replicate 65536 97).take 2 = [1, 0] := by
  have htl : (List.replicate 65536 'a').asString.toList = List.replicate 65536 'a' :=
    List.toList_asString _
  have hlen : (utf8L (List.replicate 65536 'a').asString.toList).length = 65536 := by
    rw [htl, utf8L_replicate_a, List.length_replicate]
  refine ⟨hlen, by omega, ?_, rfl⟩
  unfold tlvBase64 encodeFields compute_qr_code_field
  rw [encodeFields]
  rw [htl, utf8L_replicate_a, List.length_replicate, List.append_nil]
  unfold fromCharCodes btoaCodes
  have hmap : (1 :: 65536 :: List.replicate 65536 97).map (fun b => b % 65536) =
      1 :: 0 :: List.replicate 65536 97 := by
    rw [List.map_cons, List.map_cons, List.map_replicate]
  rw [hmap]
  rw [if_pos ?hall]
  case hall =>
    rw [List.all_eq_true]
    intro b hb
    rcases List.mem_cons.mp hb with h1 | hb
    · simp [h1]
    · rcases List.mem_cons.mp hb with h2 | hb
      · simp [h2]
      · have := List.eq_of_mem_replicate hb
        simp [this]

theorem alnum_toNat_ge (c : Char) (h : isAlnum c = true) : 48 ≤ c.toNat := by
  simp only [isAlnum, Bool.or_eq_true, Bool.and_eq_true, decide_eq_true_eq] at h
  rcases h with (⟨h1, h2⟩ | ⟨h1, h2⟩) | ⟨h1, h2⟩
  · have h1' : 65 ≤ c.toNat := by simpa [Char.le_def] using h1
    omega
  · have h1' : 97 ≤ c.toNat := by simpa [Char.le_def] using h1
    omega
  · have h1' : 48 ≤ c.toNat := by simpa [Char.le_def] using h1
    omega

theorem escChar_alnum (c : Char) (h : isAlnum c = true) : escChar c = [c] := by
  have h48 := alnum_toNat_ge c h
  have hq : c ≠ '"' := fun he => by rw [he] at h; exact absurd h (by decide)
  have hb : c ≠ '\\' := fun he => by rw [he] at h; exact absurd h (by decide)
  have h8 : c ≠ '\x08' := fun he => by rw [he] at h; exact absurd h (by decide)
  have h9 : c ≠ '\x09' := fun he => by rw [he] at h; exact absurd h (by decide)
  have ha : c ≠ '\x0a' := fun he => by rw [he] at h; exact absurd h (by decide)
  have hc : c ≠ '\x0c' := fun he => by rw [he] at h; exact absurd h (by decide)
  have hd : c ≠ '\x0d' := fun he => by rw [he] at h; exact absurd h (by decide)
  unfold escChar
  rw [if_neg hq, if_neg hb, if_neg h8, if_neg h9, if_neg ha, if_neg hc,
    if_neg hd, if_neg (by omega)]

theorem countAlnum_escChar (c : Char) :
    countAlnum [c] ≤ countAlnum (escChar c) := by
  by_cases h : isAlnum c = true
  · rw [escChar_alnum c h]
  · simp only [Bool.not_eq_true] at h
    simp [countAlnum, List.countP_cons, h]

theorem countAlnum_escFlatten (l : List Char) :
    countAlnum l ≤ countAlnum ((l.map escChar).flatten) := by
  induction l with
  | nil => exact Nat.le_refl _
  | cons c t ih =>
    have h1 := countAlnum_escChar c
    have e1 : ((c :: t).map escChar).flatten =
        escChar c ++ (t.map escChar).flatten := by
      rw [List.map_cons, List.flatten_cons]
    rw [e1]
    unfold countAlnum at h1 ih ⊢
    simp only [List.countP_cons, List.countP_append] at h1 ⊢
    simp only [List.countP_nil] at h1
    omega

theorem countAlnum_jsonQuoteL (l : List Char) :
    countAlnum l ≤ countAlnum (jsonQuoteL l) := by
  have h1 := countAlnum_escFlatten l
  unfold jsonQuoteL
  unfold countAlnum at h1 ⊢
  simp only [List.countP_cons, List.countP_append, List.countP_nil]
  have hz : (if isAlnum '"' = true then 1 else 0) = 0 := by decide
  rw [hz]
  omega

/-- Lower bound on the alphanumeric characters contributed by an object's
entries: the key's characters plus the serialized value's characters. -/
def alnumBoundO : JObj → Nat
  | JObj.nil => 0
  | JObj.cons k v t =>
    countAlnum k.toList + countAlnum (stringifyV v) + alnumBoundO t

/-- Per-entry alphanumeric weight of an entry list. -/
def entryAlnum (p : String × JVal) : Nat :=
  countAlnum p.1.toList + countAlnum (stringifyV p.2)

theorem alnumBoundO_le_stringifyO :
    ∀ o : JObj, alnumBoundO o ≤ countAlnum (stringifyO o)
  | JObj.nil => Nat.le_refl _
  | JObj.cons k v JObj.nil => by
    have hq := countAlnum_jsonQuoteL k.toList
    rw [alnumBoundO, stringifyO]
    unfold countAlnum at hq ⊢
    simp only [List.countP_append, List.countP_cons, List.countP_nil,
      alnumBoundO] at hq ⊢
    have hz : (if isAlnum ':' = true then 1 else 0) = 0 := by decide
    rw [hz]
    omega
  | JObj.cons k v (JObj.cons k' v' t) => by
    have hq := countAlnum_jsonQuoteL k.toList
    have ih := alnumBoundO_le_stringifyO (JObj.cons k' v' t)
    rw [alnumBoundO, stringifyO]
    unfold countAlnum at hq ih ⊢
    simp only [List.countP_append, List.countP_cons, List.countP_nil] at hq ih ⊢
    have hz : (if isAlnum ':' = true then 1 else 0) = 0 := by decide
    have hz2 : (if isAlnum ',' = true then 1 else 0) = 0 := by decide
    rw [hz, hz2]
    omega

theorem alnumBoundO_ofListO :
    ∀ L : List (String × JVal), alnumBoundO (ofListO L) = (L.map entryAlnum).sum
  | [] => rfl
  | (k, v) :: t => by
    rw [ofListO, alnumBoundO, alnumBoundO_ofListO t]
    simp [entryAlnum]

theorem countAlnum_stringify_jobj (x : JObj) :
    countAlnum (stringifyV (jobj x)) = countAlnum (stringifyO x) := by
  rw [stringifyV]
  unfold countAlnum
  simp only [List.countP_cons, List.countP_append, List.countP_nil]
  have hz : (if isAlnum '\x7b' = true then 1 else 0) = 0 := by decide
  have hz2 : (if isAlnum '\x7d' = true then 1 else 0) = 0 := by decide
  rw [hz, hz2]
  omega

theorem contentOf_sorted_alnum (o : Order) :
    190 ≤ countAlnum (stringifyV (sortV (contentOf o))) := by
  have e1 : sortV (contentOf o) =
      jobj (ofListO (List.insertionSort keyLe (sortO (contentObj o)))) := by
    simp only [contentOf, sortV]
  rw [e1, countAlnum_stringify_jobj]
  have h2 := alnumBoundO_le_stringifyO
    (ofListO (List.insertionSort keyLe (sortO (contentObj o))))
  have h3 := alnumBoundO_ofListO (List.insertionSort keyLe (sortO (contentObj o)))
  have h4 : ((List.insertionSort keyLe (sortO (contentObj o))).map entryAlnum).sum =
      ((sortO (contentObj o)).map entryAlnum).sum :=
    ((List.perm_insertionSort keyLe _).map entryAlnum).sum_eq
  have hsum : 190 ≤ ((sortO (contentObj o)).map entryAlnum).sum := by
    simp only [contentObj, sortO, List.map_cons, List.map_nil, List.sum_cons,
      List.sum_nil, entryAlnum, sortV, stringifyV]
    have hk1 : countAlnum "uuid".toList = 4 := by decide
    have hk2 : countAlnum "invoice_number".toList = 13 := by decide
    have hk3 : countAlnum "issue_date".toList = 9 := by decide
    have hk4 : countAlnum "issue_time".toList = 9 := by decide
    have hk5 : countAlnum "seller_name".toList = 10 := by decide
    have hk6 : countAlnum "seller_vat".toList = 9 := by decide
    have hk7 : countAlnum "customer_type".toList = 12 := by decide
    have hk8 : countAlnum "customer_name".toList = 12 := by decide
    have hk9 : countAlnum "customer_id".toList = 10 := by decide
    have hk10 : countAlnum "line_extension_amount".toList = 19 := by decide
    have hk11 : countAlnum "tax_exclusive_amount".toList = 18 := by decide
    have hk12 : countAlnum "tax_inclusive_amount".toList = 18 := by decide
    have hk13 : countAlnum "tax_amount".toList = 9 := by decide
    have hk14 : countAlnum "payable_amount".toList = 13 := by decide
    have hk15 : countAlnum "invoice_lines".toList = 12 := by decide
    have hk16 : countAlnum "payment_means".toList = 12 := by decide
    have hn1 := countAlnum_numToStringL o.totalWithoutTax
    have hn2 := countAlnum_numToStringL o.totalWithTax
    have hn3 := countAlnum_numToStringL o.totalTax
    omega
  omega

set_option maxRecDepth 100000 in
/-- Claim C3 (counterexample): at a concrete order the fingerprint differs
from the claimed formula, because the source encodes the JSON string literal
of the canonical form (`JSON.stringify` of a string adds quotes and
escapes), not the canonical form's own bytes. -/
theorem C3_counterexample :
    calculateInvoiceHashSyncD baseOrder ≠ claimFingerprintC3 baseOrder := by
  decide

/-- Claim C3 (amended): the direct variant's fingerprint equals the
Unicode-safe base64 encoding of the *JSON string literal* of the
CanonicalForm, stripped of non-alphanumerics and truncated to exactly 64
characters; the result always has length exactly 64, because the fixed
content keys guarantee enough alphanumeric base64 output. -/
theorem C3_fingerprint_amended (o : Order) :
    calculateInvoiceHashSyncD o =
      (stripNonAlnum (unicodeSafeB64 (jsonQuoteL (canonicalizeForZatca (contentOf o))))).take 64 ∧
    (calculateInvoiceHashSyncD o).length = 64 := by
  refine ⟨rfl, ?_⟩
  have h1 : 190 ≤ countAlnum (canonicalizeForZatca (contentOf o)) := by
    unfold canonicalizeForZatca
    rw [countAlnum_normalizeZatca]
    exact contentOf_sorted_alnum o
  have h2 : 190 ≤ countAlnum (jsonQuoteL (canonicalizeForZatca (contentOf o))) :=
    le_trans h1 (countAlnum_jsonQuoteL _)
  have h3 : 190 ≤ (jsonQuoteL (canonicalizeForZatca (contentOf o))).length := by
    have := List.countP_le_length
      (p := isAlnum) (l := jsonQuoteL (canonicalizeForZatca (contentOf o)))
    unfold countAlnum at h2
    omega
  have h4 : 190 ≤ (utf8L (jsonQuoteL (canonicalizeForZatca (contentOf o)))).length :=
    le_trans h3 (utf8L_length_ge _)
  have h5 : 64 ≤ countAlnum (unicodeSafeB64 (jsonQuoteL (canonicalizeForZatca (contentOf o)))) := by
    unfold unicodeSafeB64
    have h6 := countAlnum_encodeB64
      (utf8L (jsonQuoteL (canonicalizeForZatca (contentOf o))))
      (utf8L_lt_248 _)
    omega
  unfold calculateInvoiceHashSyncD
  rw [List.length_take, length_stripNonAlnum]
  omega
